import Mathlib

/-!
# Verification of the 2D collision core (`amethyst_collision_2d`)

Shallow embedding of the repository's collision detection and response
code.  Finite `f32` values are modelled by `ℚ` in the geometry core
(`src/components.rs`, `src/events.rs`, `src/systems.rs`); the reflection
kernel (`src/utils.rs`) uses transcendental functions, so it is modelled
over `Option ℝ` where `none` stands for a non-finite float (NaN or ±∞).
-/

/-- 2D vector of rationals, modelling `nalgebra::Vector2<f32>`. -/
structure Vec2 where
  x : ℚ
  y : ℚ
deriving DecidableEq, Repr

instance : Add Vec2 where
  add a b := ⟨a.x + b.x, a.y + b.y⟩

instance : Sub Vec2 where
  sub a b := ⟨a.x - b.x, a.y - b.y⟩

@[simp] theorem Vec2.add_def (a b : Vec2) : a + b = ⟨a.x + b.x, a.y + b.y⟩ := rfl

@[simp] theorem Vec2.sub_def (a b : Vec2) : a - b = ⟨a.x - b.x, a.y - b.y⟩ := rfl

/-- `Shape` from `src/components.rs`: the single `Rectangle` variant. -/
inductive Shape where
  | Rectangle (width : ℚ) (height : ℚ)
deriving DecidableEq, Repr

/-- `Collider2D` from `src/components.rs`. -/
structure Collider2D where
  offset : Vec2
  shape : Shape
deriving DecidableEq, Repr

/-- `Collider2D::rect`. -/
def Collider2D.rect (width height : ℚ) (offset : Vec2) : Collider2D :=
  ⟨offset, Shape.Rectangle width height⟩

/-- `Collider2D::rect_without_offset`. -/
def Collider2D.rect_without_offset (width height : ℚ) : Collider2D :=
  Collider2D.rect width height ⟨0, 0⟩

/-- `Collider2D::width`. -/
def Collider2D.width (c : Collider2D) : ℚ :=
  match c.shape with
  | Shape.Rectangle width _ => width

/-- `Collider2D::height`. -/
def Collider2D.height (c : Collider2D) : ℚ :=
  match c.shape with
  | Shape.Rectangle _ height => height

/-- `Collider2D::scaled_by`. -/
def Collider2D.scaled_by (c : Collider2D) (x y : ℚ) : Collider2D :=
  Collider2D.rect (c.width * x) (c.height * y) ⟨c.offset.x * x, c.offset.y * y⟩

/-- The private `Overlap` struct from `src/components.rs`. -/
structure Overlap where
  start : ℚ
  width : ℚ
deriving DecidableEq, Repr

/-- The private `overlap` function from `src/components.rs`.  Note that
both starts are shifted by `min width 0`, the *first* width, exactly as
in the source (`start - width.min(0.)` twice). -/
def overlap (start width other_start other_width : ℚ) : Option Overlap :=
  -- Widths need to be positive
  let start := start - min width 0
  let other_start := other_start - min width 0
  let width := |width|
  let other_width := |other_width|
  let end1 := start + width
  let other_end := other_start + other_width
  if end1 < other_start ∨ start > other_end then
    none
  else if start < other_start then
    some ⟨other_start, if end1 > other_end then other_width else end1 - other_start⟩
  else
    some ⟨start, if end1 < other_end then width else other_end - start⟩

/-- The private `overlap_center` function from `src/components.rs`. -/
def overlap_center (pos extent other_pos other_extent : ℚ) : Option ℚ :=
  (overlap (pos - extent * 0.5) extent (other_pos - other_extent * 0.5) other_extent).map
    fun ov => ov.start + ov.width * 0.5

/-- `Collider2D::collision`. -/
def Collider2D.collision (self : Collider2D) (self_pos : Vec2) (other : Collider2D)
    (other_pos : Vec2) : Option Vec2 :=
  let coll_center := self_pos + self.offset
  let other_coll_center := other_pos + other.offset
  match overlap_center coll_center.x self.width other_coll_center.x other.width,
        overlap_center coll_center.y self.height other_coll_center.y other.height with
  | some coll_x, some coll_y => some ⟨coll_x, coll_y⟩
  | _, _ => none

/-- `Collider2D::collides_with`. -/
def Collider2D.collides_with (self : Collider2D) (self_pos : Vec2) (other : Collider2D)
    (other_pos : Vec2) : Bool :=
  (self.collision self_pos other other_pos).isSome

/-- `Collider2D::collision_paths`. -/
def Collider2D.collision_paths (self : Collider2D) (self_pos : Vec2) (other : Collider2D)
    (other_pos : Vec2) : Option (Vec2 × Vec2) :=
  (Collider2D.collision self self_pos other other_pos).map
    fun collision => (collision - self_pos, collision - other_pos)

/-! ## Closed form of the per-axis overlap -/

/-- Closed form of `overlap`: both starts are shifted by `min w 0` (the
first width), widths become absolute values, and the overlap interval is
`[max of starts, min of ends]`. -/
theorem overlap_eq_closed (s w os ow : ℚ) :
    overlap s w os ow =
      if (s - min w 0) + |w| < os - min w 0 ∨ s - min w 0 > (os - min w 0) + |ow| then
        none
      else
        some ⟨max (s - min w 0) (os - min w 0),
          min ((s - min w 0) + |w|) ((os - min w 0) + |ow|)
            - max (s - min w 0) (os - min w 0)⟩ := by
  simp only [overlap]
  split_ifs with h1 h2 h3 h4 <;> push_neg at * <;>
    simp only [Option.some.injEq, Overlap.mk.injEq, max_def, min_def] <;>
    first
      | rfl
      | (split_ifs <;> exact ⟨by linarith, by linarith⟩)

/-- Closed form of `overlap_center`. -/
theorem overlap_center_eq_closed (c1 e1 c2 e2 : ℚ) :
    overlap_center c1 e1 c2 e2 =
      if (c1 - e1 * 0.5 - min e1 0) + |e1| < c2 - e2 * 0.5 - min e1 0
          ∨ c1 - e1 * 0.5 - min e1 0 > (c2 - e2 * 0.5 - min e1 0) + |e2| then
        none
      else
        some ((max (c1 - e1 * 0.5 - min e1 0) (c2 - e2 * 0.5 - min e1 0)
          + min ((c1 - e1 * 0.5 - min e1 0) + |e1|) ((c2 - e2 * 0.5 - min e1 0) + |e2|))
            * 0.5) := by
  rw [overlap_center, overlap_eq_closed]
  split_ifs with h
  · rfl
  · simp only [Option.map_some']
    congr 1
    ring

/-- `overlap` returns `none` exactly when, after the source's
normalization, the first normalized interval ends strictly before the
second starts or starts strictly after the second ends. -/
theorem overlap_eq_none_iff (s w os ow : ℚ) :
    overlap s w os ow = none ↔
      (s - min w 0) + |w| < os - min w 0 ∨ s - min w 0 > (os - min w 0) + |ow| := by
  rw [overlap_eq_closed]
  split_ifs with h <;> simp [h]

/-- Whether the per-axis overlap exists is symmetric in the two intervals. -/
theorem overlap_center_isSome_symm (c1 e1 c2 e2 : ℚ) :
    (overlap_center c1 e1 c2 e2).isSome = (overlap_center c2 e2 c1 e1).isSome := by
  rw [overlap_center_eq_closed, overlap_center_eq_closed]
  split_ifs with h1 h2 h3 <;>
    first
      | rfl
      | (exfalso; push_neg at *; casesm* _ ∧ _; casesm* _ ∨ _ <;> linarith)

/-- When the two extents have the same negative part, the per-axis
overlap center is symmetric in the two intervals. -/
theorem overlap_center_symm_of_min_eq {e1 e2 : ℚ} (h : min e1 0 = min e2 0)
    (c1 c2 : ℚ) :
    overlap_center c1 e1 c2 e2 = overlap_center c2 e2 c1 e1 := by
  rw [overlap_center_eq_closed, overlap_center_eq_closed, h]
  split_ifs with h1 h2 h3 <;>
    first
      | rfl
      | (simp only [max_def, min_def]; split_ifs <;> first | rfl | (exfalso; linarith) | (congr 1; linarith))
      | (exfalso; push_neg at *; casesm* _ ∧ _; casesm* _ ∨ _ <;> linarith)

/-- A centered interval always overlaps itself. -/
theorem overlap_center_self_isSome (c e : ℚ) :
    (overlap_center c e c e).isSome = true := by
  rw [overlap_center_eq_closed]
  have habs : (0 : ℚ) ≤ |e| := abs_nonneg e
  split_ifs with h
  · exfalso; rcases h with h | h <;> linarith
  · rfl

/-- `collision` succeeds exactly when both per-axis overlaps succeed. -/
theorem Collider2D.collision_isSome_eq (A B : Collider2D) (pA pB : Vec2) :
    (A.collision pA B pB).isSome
      = ((overlap_center (pA + A.offset).x A.width (pB + B.offset).x B.width).isSome
        && (overlap_center (pA + A.offset).y A.height (pB + B.offset).y B.height).isSome) := by
  unfold Collider2D.collision
  simp only []
  rcases overlap_center (pA + A.offset).x A.width (pB + B.offset).x B.width with _ | x <;>
    rcases overlap_center (pA + A.offset).y A.height (pB + B.offset).y B.height with _ | y <;>
    rfl

/-- Whether two colliders collide is symmetric. -/
theorem Collider2D.collision_isSome_symm (A B : Collider2D) (pA pB : Vec2) :
    (A.collision pA B pB).isSome = (B.collision pB A pA).isSome := by
  rw [Collider2D.collision_isSome_eq, Collider2D.collision_isSome_eq]
  exact congrArg₂ (· && ·) (overlap_center_isSome_symm _ _ _ _)
    (overlap_center_isSome_symm _ _ _ _)

/-- When the colliders' extents have the same negative parts on each
axis, the collision result itself is symmetric. -/
theorem Collider2D.collision_symm_of_min_eq (A B : Collider2D) (pA pB : Vec2)
    (hw : min A.width 0 = min B.width 0) (hh : min A.height 0 = min B.height 0) :
    A.collision pA B pB = B.collision pB A pA := by
  unfold Collider2D.collision
  simp only []
  rw [overlap_center_symm_of_min_eq hw, overlap_center_symm_of_min_eq hh]

/-- A collider always collides with an identical collider at the same position. -/
theorem Collider2D.collision_self_isSome (c : Collider2D) (p : Vec2) :
    (c.collision p c p).isSome = true := by
  rw [Collider2D.collision_isSome_eq, overlap_center_self_isSome, overlap_center_self_isSome]
  rfl

/-! ## Events and the detection system -/

/-- The amethyst `Transform` as read by this core: 2D translation and
per-axis scale. -/
structure Transform where
  translation : Vec2
  scale : Vec2
deriving DecidableEq, Repr

/-- `Collision` from `src/events.rs`.  Entities are opaque ids, modelled
as naturals. -/
structure Collision where
  entity : ℕ
  path : Vec2
deriving DecidableEq, Repr

/-- `CollisionEvent` from `src/events.rs`: the two participant records
(`[Collision; 2]`). -/
structure CollisionEvent where
  collisions : Collision × Collision
deriving DecidableEq, Repr

/-- `CollisionEvent::new`. -/
def CollisionEvent.new (first second : ℕ)
    (collision_path_first collision_path_second : Vec2) : CollisionEvent :=
  ⟨(⟨first, collision_path_first⟩, ⟨second, collision_path_second⟩)⟩

/-- `CollisionEvent::from_collision`. -/
def CollisionEvent.from_collision (first second : ℕ)
    (first_collider second_collider : Collider2D)
    (first_transform second_transform : Transform) : Option CollisionEvent :=
  let first_collider := first_collider.scaled_by first_transform.scale.x first_transform.scale.y
  let second_collider :=
    second_collider.scaled_by second_transform.scale.x second_transform.scale.y
  let pos : Vec2 := ⟨first_transform.translation.x, first_transform.translation.y⟩
  let other_pos : Vec2 := ⟨second_transform.translation.x, second_transform.translation.y⟩
  (Collider2D.collision_paths first_collider pos second_collider other_pos).map
    fun coll_paths => CollisionEvent.new first second coll_paths.1 coll_paths.2

/-- The component data an entity may carry, as read by
`CollisionSystem::run` in `src/systems.rs`. -/
structure EntityData where
  collider : Option Collider2D
  transform : Option Transform
  deactivated : Bool
  passive : Bool
deriving DecidableEq, Repr

/-- A world: entities (id paired with components) in the host's
iteration order. -/
abbrev World := List (ℕ × EntityData)

/-- Filter of the outer join of `CollisionSystem::run`: collider and
transform present, not deactivated, not passive. -/
def isActive (d : EntityData) : Bool :=
  d.collider.isSome && d.transform.isSome && !d.deactivated && !d.passive

/-- Filter of the inner join of `CollisionSystem::run`: collider and
transform present, not deactivated. -/
def isTestable (d : EntityData) : Bool :=
  d.collider.isSome && d.transform.isSome && !d.deactivated

/-- `CollisionEvent::from_collision` lifted to world entries; the joins
guarantee the components are present. -/
def eventFor (e o : ℕ × EntityData) : Option CollisionEvent :=
  match e.2.collider, e.2.transform, o.2.collider, o.2.transform with
  | some ec, some et, some oc, some ot => CollisionEvent.from_collision e.1 o.1 ec oc et ot
  | _, _, _, _ => none

/-- One step of the inner loop of `CollisionSystem::run`: skip entities
already covered, test the rest. -/
def innerPass (covered : List ℕ) (e o : ℕ × EntityData) : Option CollisionEvent :=
  if isTestable o.2 ∧ o.1 ∉ covered then eventFor e o else none

/-- The inner loop of `CollisionSystem::run` for the outer entity `e`. -/
def innerLoop (e : ℕ × EntityData) (covered : List ℕ) (world : World) :
    List CollisionEvent :=
  world.filterMap (innerPass covered e)

/-- The outer loop of `CollisionSystem::run`: iterate the active
entities in order, inserting each into `covered` before its inner loop. -/
def collisionRun : World → List ℕ → World → List CollisionEvent
  | [], _, _ => []
  | e :: rest, covered, world =>
    if isActive e.2 then
      innerLoop e (e.1 :: covered) world ++ collisionRun rest (e.1 :: covered) world
    else
      collisionRun rest covered world

/-- `CollisionSystem::run`: one tick of the detection system. -/
def runCollisionSystem (world : World) : List CollisionEvent :=
  collisionRun world [] world

/-! ## Spec-side definitions -/

/-- The unordered pair `{a, b}` as a sorted pair. -/
def key (a b : ℕ) : ℕ × ℕ := (min a b, max a b)

/-- The unordered entity pair of an event. -/
def pairKey (ev : CollisionEvent) : ℕ × ℕ :=
  key ev.collisions.1.entity ev.collisions.2.entity

/-- Modelled from the claim's words for C1: the §4.1 recipe with *each*
interval's start normalized by its *own* extent
(`s2 = c2 - e2/2 - min e2 0`), ends and overlap computed afterwards. -/
def overlap_center_spec_own (c1 e1 c2 e2 : ℚ) : Option ℚ :=
  let s1 := c1 - e1 * 0.5 - min e1 0
  let w1 := |e1|
  let s2 := c2 - e2 * 0.5 - min e2 0
  let w2 := |e2|
  let end1 := s1 + w1
  let end2 := s2 + w2
  if end1 < s2 ∨ s1 > end2 then none
  else if s1 < s2 then some (s2 + min w2 (end1 - s2) * 0.5)
  else some (s1 + min w1 (end2 - s1) * 0.5)

/-- The §4.1 recipe with *both* starts normalized by the *first*
extent (`s2 = c2 - e2/2 - min e1 0`), as the source actually does. -/
def overlap_center_spec_first (c1 e1 c2 e2 : ℚ) : Option ℚ :=
  let s1 := c1 - e1 * 0.5 - min e1 0
  let w1 := |e1|
  let s2 := c2 - e2 * 0.5 - min e1 0
  let w2 := |e2|
  let end1 := s1 + w1
  let end2 := s2 + w2
  if end1 < s2 ∨ s1 > end2 then none
  else if s1 < s2 then some (s2 + min w2 (end1 - s2) * 0.5)
  else some (s1 + min w1 (end2 - s1) * 0.5)

/-- Spec §3: world-space collider box center
`(tx + ox·sx, ty + oy·sy)`. -/
def worldCenter (t : Transform) (c : Collider2D) : Vec2 :=
  ⟨t.translation.x + c.offset.x * t.scale.x, t.translation.y + c.offset.y * t.scale.y⟩

/-- Spec §3: world-space collider box extents `(|width·sx|, |height·sy|)`. -/
def worldExtent (t : Transform) (c : Collider2D) : Vec2 :=
  ⟨|c.width * t.scale.x|, |c.height * t.scale.y|⟩

/-- Two centered closed intervals intersect (touching included). -/
def segsIntersect (c1 e1 c2 e2 : ℚ) : Prop :=
  max (c1 - e1 * 0.5) (c2 - e2 * 0.5) ≤ min (c1 + e1 * 0.5) (c2 + e2 * 0.5)

/-- Center of the intersection of two centered closed intervals. -/
def segMid (c1 e1 c2 e2 : ℚ) : ℚ :=
  (max (c1 - e1 * 0.5) (c2 - e2 * 0.5) + min (c1 + e1 * 0.5) (c2 + e2 * 0.5)) * 0.5

/-- Spec §3/§9: the two entities' world-space axis-aligned boxes
intersect (touching included). -/
def boxesIntersect (t1 : Transform) (c1 : Collider2D) (t2 : Transform)
    (c2 : Collider2D) : Prop :=
  segsIntersect (worldCenter t1 c1).x (worldExtent t1 c1).x
      (worldCenter t2 c2).x (worldExtent t2 c2).x ∧
    segsIntersect (worldCenter t1 c1).y (worldExtent t1 c1).y
      (worldCenter t2 c2).y (worldExtent t2 c2).y

/-! ## The reflection kernel (`src/utils.rs`) over a NaN-aware float model

The kernel divides by a product of norms and applies `acos`, `sin` and
`cos`, so its edge cases hinge on IEEE float behaviour.  A float value
is modelled as `Option ℝ`: `some r` is the finite value `r`, `none` is
any non-finite result (NaN or an infinity).  Every operation below
propagates `none`; a non-finite value fed to `acos`, `sin` or `cos`
yields NaN, so once a non-finite value enters this code path it can
never become finite again, which makes the conflation exact here. -/

/-- A float value: finite (`some`) or non-finite (`none`). -/
def FF : Type := Option ℝ

/-- Finite addition; non-finite operands propagate. -/
def fadd : FF → FF → FF
  | some a, some b => some (a + b)
  | _, _ => none

/-- Finite subtraction; non-finite operands propagate. -/
def fsub : FF → FF → FF
  | some a, some b => some (a - b)
  | _, _ => none

/-- Finite multiplication; non-finite operands propagate. -/
def fmul : FF → FF → FF
  | some a, some b => some (a * b)
  | _, _ => none

/-- Negation; non-finite operands propagate. -/
def fneg : FF → FF
  | some a => some (-a)
  | none => none

/-- Division: `x / 0` is non-finite (`0/0` is NaN, otherwise ±∞). -/
noncomputable def fdiv : FF → FF → FF
  | some a, some b => if b = 0 then none else some (a / b)
  | _, _ => none

/-- Square root: negative arguments give NaN (as `f32::sqrt` does). -/
noncomputable def fsqrt : FF → FF
  | some a => if a < 0 then none else some (Real.sqrt a)
  | none => none

/-- Arc cosine: arguments outside `[-1, 1]` give NaN (as `f32::acos`
does); non-finite arguments give NaN. -/
noncomputable def facos : FF → FF
  | some a => if a < -1 ∨ 1 < a then none else some (Real.arccos a)
  | none => none

/-- Sine; non-finite arguments give NaN. -/
noncomputable def fsin : FF → FF
  | some a => some (Real.sin a)
  | none => none

/-- Cosine; non-finite arguments give NaN. -/
noncomputable def fcos : FF → FF
  | some a => some (Real.cos a)
  | none => none

/-- The IEEE comparison `x >= 0`: false for NaN. -/
def fge0 : FF → Prop
  | some a => 0 ≤ a
  | none => False

noncomputable instance : DecidablePred fge0 := fun x =>
  match x with
  | some a => inferInstanceAs (Decidable (0 ≤ a))
  | none => inferInstanceAs (Decidable False)

/-- `Vector2<f32>` in the float model. -/
structure FVec where
  x : FF
  y : FF

/-- Componentwise negation of a vector (`-collision`, `-rotate_vec(..)`). -/
def fnegVec (v : FVec) : FVec := ⟨fneg v.x, fneg v.y⟩

/-- `nalgebra`'s `norm`: `sqrt (x² + y²)`. -/
noncomputable def fnorm (v : FVec) : FF :=
  fsqrt (fadd (fmul v.x v.x) (fmul v.y v.y))

/-- The private `rotate_vec` from `src/utils.rs`. -/
noncomputable def rotate_vec (vec : FVec) (angle : FF) : FVec :=
  let sin := fsin angle
  let cos := fcos angle
  ⟨fsub (fmul vec.x cos) (fmul vec.y sin), fadd (fmul vec.x sin) (fmul vec.y cos)⟩

/-- `reflect_mut` from `src/utils.rs`. -/
noncomputable def reflect_mut (velocity normal : FVec) : FVec :=
  let dot := fadd (fmul velocity.x normal.x) (fmul velocity.y normal.y)
  let norms := fmul (fnorm velocity) (fnorm normal)
  let positive_angle := fge0 (fsub (fmul velocity.x normal.y) (fmul velocity.y normal.x))
  let angle0 := facos (fdiv dot norms)
  let angle := if positive_angle then angle0 else fmul angle0 (some (-1))
  fnegVec (rotate_vec velocity (fmul angle (some 2)))

/-- `reflect_velocity` from `src/utils.rs`: reflect against the negated
collision vector. -/
noncomputable def reflect_velocity (velocity : FVec) (collision : FVec) : FVec :=
  reflect_mut velocity (fnegVec collision)

theorem fadd_some (a b : ℝ) : fadd (some a) (some b) = some (a + b) := rfl

theorem fadd_none_left (b : FF) : fadd none b = none := rfl

theorem fmul_some (a b : ℝ) : fmul (some a) (some b) = some (a * b) := rfl

theorem fmul_none_right (a : ℝ) : fmul (some a) none = none := rfl

theorem fmul_none_left (b : FF) : fmul none b = none := rfl

theorem fsub_some (a b : ℝ) : fsub (some a) (some b) = some (a - b) := rfl

theorem fsub_none_left (b : FF) : fsub none b = none := rfl

theorem fmul_none (a : FF) : fmul a none = none := by
  rcases a with _ | a <;> rfl

theorem facos_none : facos none = none := rfl

theorem fsin_none : fsin none = none := rfl

theorem fcos_none : fcos none = none := rfl

theorem fneg_none : fneg none = none := rfl

/-- Once the angle computation divides by zero (or feeds NaN onward),
the whole reflection is NaN in both components. -/
theorem reflect_mut_of_div_none (v n : FVec)
    (h : fdiv (fadd (fmul v.x n.x) (fmul v.y n.y)) (fmul (fnorm v) (fnorm n)) = none) :
    reflect_mut v n = ⟨none, none⟩ := by
  unfold reflect_mut rotate_vec fnegVec
  simp only [h, facos_none, fmul_none_left, ite_self, fsin_none, fcos_none, fmul_none,
    fsub_none_left, fadd_none_left, fneg_none]

theorem fdiv_some_zero (a : ℝ) : fdiv (some a) (some 0) = none := by
  simp [fdiv]

theorem fmul_zero_some (b : ℝ) : fmul (some 0) (some b) = some 0 := by
  simp [fmul]

/-- C4 (amended): with a zero velocity or a zero collision vector the
division `dot / norms` in `reflect_mut` is `0 / 0`, so far from leaving
the velocity unchanged, `reflect_velocity` turns both components into
NaN. -/
theorem reflect_velocity_zero (vx vy cx cy : ℝ)
    (h : (vx = 0 ∧ vy = 0) ∨ (cx = 0 ∧ cy = 0)) :
    reflect_velocity ⟨some vx, some vy⟩ ⟨some cx, some cy⟩ = ⟨none, none⟩ := by
  unfold reflect_velocity
  apply reflect_mut_of_div_none
  rcases h with ⟨hx, hy⟩ | ⟨hx, hy⟩ <;> subst hx <;> subst hy
  · have hdot : fadd (fmul (some (0:ℝ)) ((fnegVec ⟨some cx, some cy⟩).x))
        (fmul (some (0:ℝ)) ((fnegVec ⟨some cx, some cy⟩).y)) = some 0 := by
      simp [fnegVec, fneg, fmul, fadd]
    have hv : fnorm ⟨some (0:ℝ), some 0⟩ = some 0 := by
      simp [fnorm, fmul, fadd, fsqrt]
    rw [hdot, hv]
    rcases fnorm (fnegVec ⟨some cx, some cy⟩) with _ | r
    · rw [fmul_none]; rfl
    · rw [fmul_zero_some, fdiv_some_zero]
  · simp only [fnegVec, fneg, neg_zero]
    have hdot : fadd (fmul (some vx) (some (0:ℝ))) (fmul (some vy) (some (0:ℝ))) = some 0 := by
      simp [fmul, fadd]
    have hnn : fnorm ⟨some (0:ℝ), some 0⟩ = some 0 := by
      simp [fnorm, fmul, fadd, fsqrt]
    rw [hdot, hnn]
    rcases fnorm ⟨some vx, some vy⟩ with _ | r
    · rw [fmul_none_left]; rfl
    · rw [fmul_some, mul_zero, fdiv_some_zero]
/-- `collision` with its lets inlined, for rewriting. -/
theorem Collider2D.collision_eq_closed (A B : Collider2D) (pA pB : Vec2) :
    A.collision pA B pB =
      match overlap_center (pA + A.offset).x A.width (pB + B.offset).x B.width,
            overlap_center (pA + A.offset).y A.height (pB + B.offset).y B.height with
      | some cx, some cy => some ⟨cx, cy⟩
      | _, _ => none := rfl

/-! ## A concrete two-entity world for witnesses -/

/-- A 2×2 collider with no offset. -/
def exCollider : Collider2D := Collider2D.rect_without_offset 2 2

/-- Identity-scale transform at the origin. -/
def exTransform0 : Transform := ⟨⟨0, 0⟩, ⟨1, 1⟩⟩

/-- Identity-scale transform at `(1, 0)`. -/
def exTransform1 : Transform := ⟨⟨1, 0⟩, ⟨1, 1⟩⟩

/-- Active entity data at the origin. -/
def exData0 : EntityData := ⟨some exCollider, some exTransform0, false, false⟩

/-- Active entity data at `(1, 0)`. -/
def exData1 : EntityData := ⟨some exCollider, some exTransform1, false, false⟩

/-- Two overlapping active entities. -/
def exWorld : World := [(0, exData0), (1, exData1)]

/-- The single event the detection tick produces on `exWorld`. -/
def exEvent : CollisionEvent := ⟨(⟨0, ⟨0.5, 0⟩⟩, ⟨1, ⟨-0.5, 0⟩⟩)⟩

theorem exCollision :
    (exCollider.scaled_by 1 1).collision ⟨0, 0⟩ (exCollider.scaled_by 1 1) ⟨1, 0⟩
      = some ⟨0.5, 0⟩ := by
  rw [Collider2D.collision_eq_closed]
  norm_num [exCollider, Collider2D.rect_without_offset, Collider2D.rect, Collider2D.scaled_by,
    Collider2D.width, Collider2D.height, overlap_center, overlap, abs_of_nonneg, abs_of_nonpos]

theorem exFrom :
    CollisionEvent.from_collision 0 1 exCollider exCollider exTransform0 exTransform1
      = some exEvent := by
  unfold CollisionEvent.from_collision Collider2D.collision_paths
  norm_num [exTransform0, exTransform1, exCollision, exEvent, CollisionEvent.new]

theorem exEventFor : eventFor (0, exData0) (1, exData1) = some exEvent := exFrom

theorem isActive_exData0 : isActive exData0 = true := rfl

theorem isActive_exData1 : isActive exData1 = true := rfl

theorem isTestable_exData0 : isTestable exData0 = true := rfl

theorem isTestable_exData1 : isTestable exData1 = true := rfl

theorem exRun : runCollisionSystem exWorld = [exEvent] := by
  simp only [runCollisionSystem, exWorld, collisionRun, innerLoop, innerPass,
    List.filterMap_cons, List.filterMap_nil, isActive_exData0, isActive_exData1,
    isTestable_exData0, isTestable_exData1, exEventFor]
  norm_num

/-! ## Structure of a detection tick -/

/-- Participants of an event produced by `from_collision` are the two
entity arguments, in order. -/
theorem CollisionEvent.from_collision_entities {f s : ℕ} {fc sc : Collider2D}
    {ft st : Transform} {ev : CollisionEvent}
    (h : CollisionEvent.from_collision f s fc sc ft st = some ev) :
    ev.collisions.1.entity = f ∧ ev.collisions.2.entity = s := by
  simp only [CollisionEvent.from_collision, Option.map_eq_some'] at h
  obtain ⟨p, hp, hev⟩ := h
  subst hev
  exact ⟨rfl, rfl⟩

theorem eventFor_entities {e o : ℕ × EntityData} {ev : CollisionEvent}
    (h : eventFor e o = some ev) :
    ev.collisions.1.entity = e.1 ∧ ev.collisions.2.entity = o.1 := by
  rcases e with ⟨eid, ec, et, ed, ep⟩
  rcases o with ⟨oid, oc, ot, od, op⟩
  rcases ec with _ | ec <;> rcases et with _ | et <;> rcases oc with _ | oc <;>
    rcases ot with _ | ot <;>
    first
      | exact Option.noConfusion h
      | exact CollisionEvent.from_collision_entities h

theorem CollisionEvent.from_collision_isSome_symm (f s : ℕ) (fc sc : Collider2D)
    (ft st : Transform) :
    (CollisionEvent.from_collision f s fc sc ft st).isSome
      = (CollisionEvent.from_collision s f sc fc st ft).isSome := by
  unfold CollisionEvent.from_collision Collider2D.collision_paths
  simp only [Option.isSome_map']
  exact Collider2D.collision_isSome_symm _ _ _ _

theorem eventFor_isSome_symm (e o : ℕ × EntityData) :
    (eventFor e o).isSome = (eventFor o e).isSome := by
  rcases e with ⟨eid, ec, et, ed, ep⟩
  rcases o with ⟨oid, oc, ot, od, op⟩
  rcases ec with _ | ec <;> rcases et with _ | et <;> rcases oc with _ | oc <;>
    rcases ot with _ | ot <;>
    first
      | rfl
      | exact CollisionEvent.from_collision_isSome_symm eid oid ec oc et ot

theorem innerPass_eq_some {covered : List ℕ} {e o : ℕ × EntityData} {ev : CollisionEvent}
    (h : innerPass covered e o = some ev) :
    isTestable o.2 = true ∧ o.1 ∉ covered ∧ eventFor e o = some ev := by
  unfold innerPass at h
  split_ifs at h with hc
  exact ⟨hc.1, hc.2, h⟩

theorem innerPass_eq_eventFor {covered : List ℕ} (e : ℕ × EntityData) {o : ℕ × EntityData}
    (ht : isTestable o.2 = true) (hc : o.1 ∉ covered) :
    innerPass covered e o = eventFor e o := by
  unfold innerPass
  rw [if_pos ⟨ht, hc⟩]

theorem innerLoop_mem {e : ℕ × EntityData} {covered : List ℕ} {world : World}
    {ev : CollisionEvent} (h : ev ∈ innerLoop e covered world) :
    ∃ o ∈ world, innerPass covered e o = some ev :=
  List.mem_filterMap.mp h

/-- Every event of a run comes from an active outer entity of `rest`
and a testable, uncovered inner entity of `world`. -/
theorem collisionRun_shape : ∀ {rest : World} {covered : List ℕ} {world : World}
    {ev : CollisionEvent}, ev ∈ collisionRun rest covered world →
    ∃ e o, e ∈ rest ∧ o ∈ world ∧ isActive e.2 = true ∧ isTestable o.2 = true ∧
      o.1 ∉ covered ∧ o.1 ≠ e.1 ∧ eventFor e o = some ev := by
  intro rest
  induction rest with
  | nil => intro covered world ev h; simp [collisionRun] at h
  | cons e rest ih =>
    intro covered world ev h
    rw [collisionRun] at h
    split_ifs at h with ha
    · rcases List.mem_append.mp h with h | h
      · obtain ⟨o, ho, hpass⟩ := List.mem_filterMap.mp h
        obtain ⟨ht, hcov, hev⟩ := innerPass_eq_some hpass
        have hcov' : ¬(o.1 = e.1 ∨ o.1 ∈ covered) := by
          simpa [List.mem_cons] using hcov
        push_neg at hcov'
        exact ⟨e, o, List.mem_cons_self e rest, ho, ha, ht, hcov'.2, hcov'.1, hev⟩
      · obtain ⟨e', o, he', ho, hact, ht, hcov, hne, hev⟩ := ih h
        exact ⟨e', o, List.mem_cons_of_mem _ he', ho, hact, ht,
          fun hm => hcov (List.mem_cons_of_mem _ hm), hne, hev⟩
    · obtain ⟨e', o, he', ho, hact, ht, hcov, hne, hev⟩ := ih h
      exact ⟨e', o, List.mem_cons_of_mem _ he', ho, hact, ht, hcov, hne, hev⟩

/-- In a world with distinct ids, an id determines its component data. -/
theorem nodup_id_unique : ∀ {world : World}, (world.map Prod.fst).Nodup →
    ∀ {a : ℕ} {d1 d2 : EntityData}, (a, d1) ∈ world → (a, d2) ∈ world → d1 = d2 := by
  intro world
  induction world with
  | nil => intro _ a d1 d2 h1; simp at h1
  | cons w ws ih =>
    intro hn a d1 d2 h1 h2
    rw [List.map_cons, List.nodup_cons] at hn
    rcases List.mem_cons.mp h1 with h1 | h1 <;> rcases List.mem_cons.mp h2 with h2 | h2
    · simpa using congrArg Prod.snd (h1.trans h2.symm)
    · exfalso
      apply hn.1
      have hmem : a ∈ ws.map Prod.fst := List.mem_map_of_mem Prod.fst h2
      have ha : a = w.1 := congrArg Prod.fst h1
      rwa [ha] at hmem
    · exfalso
      apply hn.1
      have hmem : a ∈ ws.map Prod.fst := List.mem_map_of_mem Prod.fst h1
      have ha : a = w.1 := congrArg Prod.fst h2
      rwa [ha] at hmem
    · exact ih hn.2 h1 h2

theorem key_eq_iff {x y a b : ℕ} :
    key x y = key a b ↔ (x = a ∧ y = b) ∨ (x = b ∧ y = a) := by
  simp only [key, Prod.mk.injEq]
  omega

theorem key_comm (a b : ℕ) : key a b = key b a := by
  simp only [key, Prod.mk.injEq]
  omega

theorem pairKey_eventFor {e o : ℕ × EntityData} {ev : CollisionEvent}
    (h : eventFor e o = some ev) : pairKey ev = key e.1 o.1 := by
  obtain ⟨h1, h2⟩ := eventFor_entities h
  rw [pairKey, h1, h2]

/-- Within one inner loop, the unordered pairs of the emitted events are
distinct. -/
theorem innerLoop_pairs_nodup : ∀ {world : World}, (world.map Prod.fst).Nodup →
    ∀ (e : ℕ × EntityData) (covered : List ℕ),
    ((innerLoop e covered world).map pairKey).Nodup := by
  intro world
  induction world with
  | nil => intro _ e covered; simp [innerLoop]
  | cons o ws ih =>
    intro hn e covered
    rw [List.map_cons, List.nodup_cons] at hn
    rw [innerLoop, List.filterMap_cons]
    rcases hp : innerPass covered e o with _ | ev
    · exact ih hn.2 e covered
    · rw [List.map_cons, List.nodup_cons]
      refine ⟨?_, ih hn.2 e covered⟩
      intro hmem
      rw [List.mem_map] at hmem
      obtain ⟨ev', hev', hpk⟩ := hmem
      obtain ⟨o', ho', hp'⟩ := List.mem_filterMap.mp hev'
      obtain ⟨_, _, hevf'⟩ := innerPass_eq_some hp'
      obtain ⟨_, _, hevf⟩ := innerPass_eq_some hp
      have h1 := pairKey_eventFor hevf
      have h2 := pairKey_eventFor hevf'
      rw [h2, h1] at hpk
      have hoo : o'.1 = o.1 := by
        rcases key_eq_iff.mp hpk with ⟨_, h⟩ | ⟨ha, hb⟩
        · exact h
        · exact hb.trans ha
      exact hn.1 (hoo ▸ List.mem_map_of_mem Prod.fst ho')

/-- Across one tick, the unordered pairs of the emitted events are
distinct. -/
theorem collisionRun_pairs_nodup : ∀ {rest world : World},
    (world.map Prod.fst).Nodup → rest.Sublist world → ∀ covered,
    ((collisionRun rest covered world).map pairKey).Nodup := by
  intro rest
  induction rest with
  | nil => intro world _ _ covered; simp [collisionRun]
  | cons e rest ih =>
    intro world hn hsub covered
    have hsub' : rest.Sublist world := List.sublist_of_cons_sublist hsub
    rw [collisionRun]
    split_ifs with ha
    · rw [List.map_append]
      refine ((innerLoop_pairs_nodup hn e (e.1 :: covered)).append
        (ih hn hsub' (e.1 :: covered))) ?_
      intro p hp hp'
      rw [List.mem_map] at hp hp'
      obtain ⟨ev, hev, hpk⟩ := hp
      obtain ⟨ev', hev', hpk'⟩ := hp'
      obtain ⟨o, ho, hpass⟩ := innerLoop_mem hev
      obtain ⟨_, _, hevf⟩ := innerPass_eq_some hpass
      obtain ⟨e', o', he', ho', _, _, hcov', _, hevf'⟩ := collisionRun_shape hev'
      have hk := pairKey_eventFor hevf
      have hk' := pairKey_eventFor hevf'
      rw [hk] at hpk
      rw [hk'] at hpk'
      have hkey : key e.1 o.1 = key e'.1 o'.1 := hpk.trans hpk'.symm
      have hne1 : e'.1 ≠ e.1 := by
        intro hq
        have hnd : ((e :: rest).map Prod.fst).Nodup := (hsub.map Prod.fst).nodup hn
        rw [List.map_cons, List.nodup_cons] at hnd
        exact hnd.1 (hq ▸ List.mem_map_of_mem Prod.fst he')
      have hne2 : o'.1 ≠ e.1 := by
        intro hq
        exact hcov' (hq ▸ List.mem_cons_self e.1 covered)
      rcases key_eq_iff.mp hkey with ⟨h1, _⟩ | ⟨h2, _⟩
      · exact hne1 h1.symm
      · exact hne2 h2.symm
    · exact ih hn hsub' covered

theorem isActive_isTestable {d : EntityData} (h : isActive d = true) :
    isTestable d = true := by
  simp only [isActive, isTestable, Bool.and_eq_true] at h ⊢
  exact ⟨h.1.1, h.1.2⟩

theorem isTestable_not_deactivated {d : EntityData} (h : isTestable d = true) :
    d.deactivated = false := by
  simp only [isTestable, Bool.and_eq_true, Bool.not_eq_true'] at h
  exact h.2

/-- A colliding pair made of an active entity (in the remaining outer
list) and a testable entity, neither yet covered, contributes an event
to the run. -/
theorem collisionRun_mem_key : ∀ {rest world : World},
    (world.map Prod.fst).Nodup → rest.Sublist world →
    ∀ {covered : List ℕ} {a b : ℕ} {da db : EntityData},
    (a, da) ∈ rest → isActive da = true → (b, db) ∈ world → isTestable db = true →
    a ≠ b → a ∉ covered → b ∉ covered → (eventFor (a, da) (b, db)).isSome = true →
    ∃ ev ∈ collisionRun rest covered world, pairKey ev = key a b := by
  intro rest
  induction rest with
  | nil => intro world _ _ covered a b da db ha; simp at ha
  | cons e rest ih =>
    intro world hn hsub covered a b da db hain hact hbin htest hab hacov hbcov hev
    have hsub' := List.sublist_of_cons_sublist hsub
    have hewin : e ∈ world := hsub.subset (List.mem_cons_self e rest)
    have haw : (e.1, e.2) ∈ world := by simpa using hewin
    rw [collisionRun]
    split_ifs with hea
    · by_cases h1 : e.1 = a
      · have hed : e.2 = da := by
          rw [h1] at haw
          exact nodup_id_unique hn haw (hsub.subset hain)
        have he : e = (a, da) := Prod.ext h1 hed
        subst he
        obtain ⟨evv, hevv⟩ := Option.isSome_iff_exists.mp hev
        have hbnot : b ∉ (a, da).1 :: covered := by
          simp only [List.mem_cons, not_or]
          exact ⟨Ne.symm hab, hbcov⟩
        refine ⟨evv, List.mem_append_left _ (List.mem_filterMap.mpr ⟨(b, db), hbin, ?_⟩),
          pairKey_eventFor hevv⟩
        rw [innerPass_eq_eventFor _ htest hbnot]
        exact hevv
      · by_cases h2 : e.1 = b
        · have hed : e.2 = db := by
            rw [h2] at haw
            exact nodup_id_unique hn haw hbin
          have he : e = (b, db) := Prod.ext h2 hed
          subst he
          have hev2 : (eventFor (b, db) (a, da)).isSome = true :=
            (eventFor_isSome_symm (a, da) (b, db)).symm.trans hev
          obtain ⟨evv, hevv⟩ := Option.isSome_iff_exists.mp hev2
          have hanot : a ∉ (b, db).1 :: covered := by
            simp only [List.mem_cons, not_or]
            exact ⟨hab, hacov⟩
          refine ⟨evv, List.mem_append_left _
            (List.mem_filterMap.mpr ⟨(a, da), hsub.subset hain, ?_⟩), ?_⟩
          · rw [innerPass_eq_eventFor _ (isActive_isTestable hact) hanot]
            exact hevv
          · rw [pairKey_eventFor hevv]
            exact key_comm b a
        · have hain' : (a, da) ∈ rest := by
            rcases List.mem_cons.mp hain with h | h
            · exact absurd (congrArg Prod.fst h).symm h1
            · exact h
          have hanot : a ∉ e.1 :: covered := by
            simp only [List.mem_cons, not_or]
            exact ⟨fun hq => h1 hq.symm, hacov⟩
          have hbnot : b ∉ e.1 :: covered := by
            simp only [List.mem_cons, not_or]
            exact ⟨fun hq => h2 hq.symm, hbcov⟩
          obtain ⟨ev, hmem, hk⟩ := ih hn hsub' hain' hact hbin htest hab hanot hbnot hev
          exact ⟨ev, List.mem_append_right _ hmem, hk⟩
    · have h1 : e.1 ≠ a := by
        intro hq
        rw [hq] at haw
        have hed : e.2 = da := nodup_id_unique hn haw (hsub.subset hain)
        rw [hed] at hea
        exact hea hact
      have hain' : (a, da) ∈ rest := by
        rcases List.mem_cons.mp hain with h | h
        · exact absurd (congrArg Prod.fst h).symm h1
        · exact h
      exact ih hn hsub' hain' hact hbin htest hab hacov hbcov hev

/-! ## Claim theorems -/

/-- C1 (counterexample): normalizing each interval by its *own* extent
disagrees with the source's `overlap_center` at `(0, 2, 0, -2)` — the
source shifts the second start by `min e1 0`, not `min e2 0`. -/
theorem overlap_center_own_normalization_cex :
    overlap_center 0 2 0 (-2) = some 1 ∧ overlap_center_spec_own 0 2 0 (-2) = none := by
  constructor
  · norm_num [overlap_center, overlap, abs_of_nonneg, abs_of_nonpos]
  · norm_num [overlap_center_spec_own, abs_of_nonneg, abs_of_nonpos]

/-- C1 (amended): for every pair of finite inputs the per-axis overlap
equals the §4.1 recipe in which *both* starts are normalized by the
*first* interval's extent: `s1 = c1 - e1/2 - min e1 0` and
`s2 = c2 - e2/2 - min e1 0`, with widths `|e1|`, `|e2|`. -/
theorem combine_lt {s1 s2 : ℚ} (w1 w2 : ℚ) (h : s1 < s2) :
    (max s1 s2 + min (s1 + w1) (s2 + w2)) * 0.5 = s2 + min w2 (s1 + w1 - s2) * 0.5 := by
  rw [max_eq_right h.le]
  rcases le_total w2 (s1 + w1 - s2) with hm | hm
  · rw [min_eq_left hm, min_eq_right (by linarith)]
    ring
  · rw [min_eq_right hm, min_eq_left (by linarith)]
    ring

theorem combine_ge {s1 s2 : ℚ} (w1 w2 : ℚ) (h : s2 ≤ s1) :
    (max s1 s2 + min (s1 + w1) (s2 + w2)) * 0.5 = s1 + min w1 (s2 + w2 - s1) * 0.5 := by
  rw [max_eq_left h]
  rcases le_total w1 (s2 + w2 - s1) with hm | hm
  · rw [min_eq_left hm, min_eq_left (by linarith)]
    ring
  · rw [min_eq_right hm, min_eq_right (by linarith)]
    ring

theorem overlap_center_eq_spec_first (c1 e1 c2 e2 : ℚ) :
    overlap_center c1 e1 c2 e2 = overlap_center_spec_first c1 e1 c2 e2 := by
  rw [overlap_center_eq_closed]
  unfold overlap_center_spec_first
  simp only []
  split_ifs with h1 h2
  · rfl
  · exact congrArg some (combine_lt |e1| |e2| h2)
  · exact congrArg some (combine_ge |e1| |e2| (not_lt.mp h2))

/-- C2: the six literal `overlap_center` scenarios of the spec; the
last one is pinned down to within half of `0.01`, i.e. it rounds to
`-2.34` (in the exact-rational model it is exactly `-2.34`). -/
theorem overlap_center_scenarios :
    overlap_center 20 3 30 4 = none ∧
    overlap_center 30 11 15 6 = none ∧
    overlap_center 90 68 130 20 = some 122 ∧
    overlap_center 24.6 3.4 20 6.6 = some 23.1 ∧
    overlap_center 1.34 2.2 (-40.6543) 2000.5 = some 1.34 ∧
    ∃ q : ℚ, overlap_center (-124.2345) 3456.32 (-2.34) 45.2 = some q
      ∧ |q - (-2.34)| < 1 / 200 := by
  refine ⟨?_, ?_, ?_, ?_, ?_, -2.34, ?_, by norm_num⟩ <;>
    norm_num [overlap_center, overlap, abs_of_nonneg, abs_of_nonpos]

/-- C10: a collider always reports a collision with an identical
collider at the same position, whatever the signs of its extents. -/
theorem collides_with_self (c : Collider2D) (p : Vec2) :
    c.collides_with p c p = true := by
  unfold Collider2D.collides_with
  exact Collider2D.collision_self_isSome c p

/-- C3 (counterexample): two colliders whose widths have different
signs collide in both orders, but the two overlap centers differ
(`(1,0)` against `(3,0)`). -/
theorem collision_symm_cex :
    (Collider2D.rect 2 2 ⟨0, 0⟩).collision ⟨0, 0⟩ (Collider2D.rect (-2) 2 ⟨0, 0⟩) ⟨0, 0⟩
        = some ⟨1, 0⟩ ∧
      (Collider2D.rect (-2) 2 ⟨0, 0⟩).collision ⟨0, 0⟩ (Collider2D.rect 2 2 ⟨0, 0⟩) ⟨0, 0⟩
        = some ⟨3, 0⟩ ∧
      (Collider2D.rect 2 2 ⟨0, 0⟩).collision ⟨0, 0⟩ (Collider2D.rect (-2) 2 ⟨0, 0⟩) ⟨0, 0⟩
        ≠ (Collider2D.rect (-2) 2 ⟨0, 0⟩).collision ⟨0, 0⟩ (Collider2D.rect 2 2 ⟨0, 0⟩)
            ⟨0, 0⟩ := by
  refine ⟨?_, ?_, ?_⟩
  · rw [Collider2D.collision_eq_closed]
    norm_num [Collider2D.rect, Collider2D.width, Collider2D.height, overlap_center, overlap,
      abs_of_nonneg, abs_of_nonpos]
  · rw [Collider2D.collision_eq_closed]
    norm_num [Collider2D.rect, Collider2D.width, Collider2D.height, overlap_center, overlap,
      abs_of_nonneg, abs_of_nonpos]
  · rw [Collider2D.collision_eq_closed, Collider2D.collision_eq_closed]
    norm_num [Collider2D.rect, Collider2D.width, Collider2D.height, overlap_center, overlap,
      abs_of_nonneg, abs_of_nonpos]

/-- C3 (amended): detection success is symmetric for all colliders; the
overlap centers agree whenever the two widths have the same negative
part and likewise the two heights (in particular whenever all extents
are nonnegative). -/
theorem collision_symm (A B : Collider2D) (pA pB : Vec2) :
    ((A.collision pA B pB).isSome = true ↔ (B.collision pB A pA).isSome = true) ∧
      (min A.width 0 = min B.width 0 → min A.height 0 = min B.height 0 →
        A.collision pA B pB = B.collision pB A pA) := by
  constructor
  · rw [Collider2D.collision_isSome_symm]
  · exact Collider2D.collision_symm_of_min_eq A B pA pB

/-- Witness for C3 at nonnegative extents. -/
theorem collision_symm_witness :
    min (Collider2D.rect 2 2 ⟨0, 0⟩).width 0 = min (Collider2D.rect 2 4 ⟨0, 0⟩).width 0 ∧
      min (Collider2D.rect 2 2 ⟨0, 0⟩).height 0 = min (Collider2D.rect 2 4 ⟨0, 0⟩).height 0 ∧
      (Collider2D.rect 2 2 ⟨0, 0⟩).collision ⟨0, 0⟩ (Collider2D.rect 2 4 ⟨0, 0⟩) ⟨1, 1⟩
        = (Collider2D.rect 2 4 ⟨0, 0⟩).collision ⟨1, 1⟩ (Collider2D.rect 2 2 ⟨0, 0⟩) ⟨0, 0⟩ := by
  refine ⟨?_, ?_, ?_⟩
  · norm_num [Collider2D.rect, Collider2D.width]
  · norm_num [Collider2D.rect, Collider2D.height]
  · exact (collision_symm (Collider2D.rect 2 2 ⟨0, 0⟩) (Collider2D.rect 2 4 ⟨0, 0⟩)
      ⟨0, 0⟩ ⟨1, 1⟩).2 (by norm_num [Collider2D.rect, Collider2D.width])
      (by norm_num [Collider2D.rect, Collider2D.height])

/-- C4 (counterexample): with velocity `(1, 0)` and a zero collision
vector, `reflect_velocity` does not leave the velocity unchanged — the
division `0/0` turns both components into NaN. -/
theorem reflect_velocity_zero_cex :
    reflect_velocity ⟨some 1, some 0⟩ ⟨some 0, some 0⟩ ≠ ⟨some 1, some 0⟩ := by
  have h : reflect_velocity ⟨some 1, some 0⟩ ⟨some 0, some 0⟩ = ⟨none, none⟩ := by
    unfold reflect_velocity
    apply reflect_mut_of_div_none
    have hneg : fnegVec ⟨some (0:ℝ), some 0⟩ = ⟨some 0, some 0⟩ := by
      simp [fnegVec, fneg]
    rw [hneg]
    have hdot : fadd (fmul (some (1:ℝ)) (some (0:ℝ))) (fmul (some (0:ℝ)) (some (0:ℝ)))
        = some 0 := by
      norm_num [fmul, fadd]
    have hv : fnorm ⟨some (1:ℝ), some 0⟩ = some 1 := by
      norm_num [fnorm, fmul, fadd, fsqrt, Real.sqrt_one]
    have hn : fnorm ⟨some (0:ℝ), some 0⟩ = some 0 := by
      norm_num [fnorm, fmul, fadd, fsqrt]
    rw [hdot, hv, hn, fmul_some, one_mul, fdiv_some_zero]
  rw [h]
  intro hq
  exact Option.noConfusion (congrArg FVec.x hq)

/-- Witness for C4 at velocity `(1, 0)` and collision vector `(0, 0)`. -/
theorem reflect_velocity_zero_witness :
    reflect_velocity ⟨some 1, some 0⟩ ⟨some 0, some 0⟩ = ⟨none, none⟩ :=
  reflect_velocity_zero 1 0 0 0 (Or.inr ⟨rfl, rfl⟩)

/-- C5: after the source's normalization, the per-axis overlap is `none`
iff the intervals are strictly apart; boundary touching counts as
overlap, and two zero-extent intervals overlap exactly when their
positions coincide. -/
theorem overlap_none_iff_boundary (s w os ow : ℚ) :
    (overlap s w os ow = none ↔
      (s - min w 0) + |w| < os - min w 0 ∨ s - min w 0 > (os - min w 0) + |ow|) ∧
    ((s - min w 0) + |w| = os - min w 0 → (overlap s w os ow).isSome = true) ∧
    (∀ p op : ℚ, ((overlap_center p 0 op 0).isSome = true ↔ p = op)) := by
  refine ⟨overlap_eq_none_iff s w os ow, ?_, ?_⟩
  · intro hb
    rw [Option.isSome_iff_ne_none, ne_eq, overlap_eq_none_iff]
    have h1 := abs_nonneg w
    have h2 := abs_nonneg ow
    push_neg
    constructor <;> linarith
  · intro p op
    rw [Option.isSome_iff_ne_none, ne_eq, overlap_center, Option.map_eq_none',
      overlap_eq_none_iff]
    push_neg
    norm_num
    constructor
    · intro h
      linarith [h.1, h.2]
    · intro h
      rw [h]
      exact ⟨le_refl _, le_refl _⟩

/-- Witness for C5: boundary touching at `overlap 0 2 2 1`, and
zero-extent coincidence at position 3. -/
theorem overlap_none_iff_boundary_witness :
    ((0:ℚ) - min 2 0) + |(2:ℚ)| = 2 - min 2 0 ∧ (overlap 0 2 2 1).isSome = true ∧
      ((overlap_center 3 0 3 0).isSome = true ↔ (3:ℚ) = 3) :=
  ⟨by norm_num, (overlap_none_iff_boundary 0 2 2 1).2.1 (by norm_num),
    (overlap_none_iff_boundary 0 2 2 1).2.2 3 3⟩

/-- In a duplicate-free list, a present element is hit by the equality
filter exactly once. -/
theorem length_filter_eq_one_of_nodup_mem {α : Type} [DecidableEq α] {l : List α} {a : α}
    (hn : l.Nodup) (hm : a ∈ l) : (l.filter fun x => x = a).length = 1 := by
  induction l with
  | nil => simp at hm
  | cons b l ih =>
    rw [List.nodup_cons] at hn
    rcases List.mem_cons.mp hm with h | h
    · subst h
      rw [List.filter_cons, if_pos (by simp)]
      have hnil : l.filter (fun x => decide (x = a)) = [] := by
        rw [List.filter_eq_nil_iff]
        intro x hx
        simp only [decide_eq_true_eq]
        intro hxa
        exact hn.1 (hxa ▸ hx)
      simp [hnil]
    · have hba : b ≠ a := fun he => hn.1 (he ▸ h)
      rw [List.filter_cons, if_neg (by simp [hba])]
      exact ih hn.2 h

/-- C6: in one tick over a world with distinct entity ids, the
unordered entity pairs of the emitted events are pairwise distinct, and
every colliding pair of an active and a testable (active or passive)
entity contributes exactly one event. -/
theorem collision_system_dedup (world : World) (hn : (world.map Prod.fst).Nodup) :
    ((runCollisionSystem world).map pairKey).Nodup ∧
      ∀ a b : ℕ, ∀ da db : EntityData,
        (a, da) ∈ world → isActive da = true → (b, db) ∈ world → isTestable db = true →
        a ≠ b → (eventFor (a, da) (b, db)).isSome = true →
        (((runCollisionSystem world).map pairKey).filter fun p => p = key a b).length
          = 1 := by
  constructor
  · exact collisionRun_pairs_nodup hn (List.Sublist.refl world) []
  · intro a b da db hain hact hbin htest hab hev
    obtain ⟨ev, hmemr, hk⟩ := collisionRun_mem_key hn (List.Sublist.refl world) hain hact
      hbin htest hab (List.not_mem_nil a) (List.not_mem_nil b) hev
    have hmem : key a b ∈ (runCollisionSystem world).map pairKey :=
      hk ▸ List.mem_map_of_mem pairKey hmemr
    exact length_filter_eq_one_of_nodup_mem
      (collisionRun_pairs_nodup hn (List.Sublist.refl world) []) hmem

/-- Witness for C6 on the two-entity example world. -/
theorem collision_system_dedup_witness :
    ((runCollisionSystem exWorld).map pairKey).Nodup ∧
      (((runCollisionSystem exWorld).map pairKey).filter fun p => p = key 0 1).length
        = 1 := by
  have h := collision_system_dedup exWorld (by simp [exWorld])
  refine ⟨h.1, h.2 0 1 exData0 exData1 ?_ isActive_exData0 ?_ isTestable_exData1 ?_ ?_⟩
  · simp [exWorld]
  · simp [exWorld]
  · norm_num
  · rw [exEventFor]
    rfl

/-- C7: no emitted event involves an entity that carries the
`DeactivateCollider` flag, in either participant slot. -/
theorem collision_events_no_deactivated (world : World)
    (hn : (world.map Prod.fst).Nodup) :
    ∀ ev ∈ runCollisionSystem world, ∀ p ∈ world,
      (p.1 = ev.collisions.1.entity ∨ p.1 = ev.collisions.2.entity) →
      p.2.deactivated = false := by
  intro ev hev p hp hid
  obtain ⟨e, o, he, ho, hact, ht, _, _, hevf⟩ := collisionRun_shape hev
  obtain ⟨h1, h2⟩ := eventFor_entities hevf
  rcases hid with hid | hid
  · rw [h1] at hid
    have hpw : (e.1, p.2) ∈ world := by
      rw [← hid]
      simpa using hp
    have hew : (e.1, e.2) ∈ world := by simpa using he
    have hpe : p.2 = e.2 := nodup_id_unique hn hpw hew
    rw [hpe]
    exact isTestable_not_deactivated (isActive_isTestable hact)
  · rw [h2] at hid
    have hpw : (o.1, p.2) ∈ world := by
      rw [← hid]
      simpa using hp
    have how : (o.1, o.2) ∈ world := by simpa using ho
    have hpo : p.2 = o.2 := nodup_id_unique hn hpw how
    rw [hpo]
    exact isTestable_not_deactivated ht

/-- Witness for C7 on the two-entity example world. -/
theorem collision_events_no_deactivated_witness :
    (exWorld.map Prod.fst).Nodup ∧ exEvent ∈ runCollisionSystem exWorld ∧
      exData0.deactivated = false := by
  refine ⟨by simp [exWorld], ?_, ?_⟩
  · rw [exRun]
    exact List.mem_singleton_self _
  · exact collision_events_no_deactivated exWorld (by simp [exWorld]) exEvent
      (by rw [exRun]; exact List.mem_singleton_self _) (0, exData0) (by simp [exWorld])
      (Or.inl rfl)

/-- C8: for every event produced by `from_collision`, each
participant's path plus that participant's world position equals the
overlap center of the two scaled colliders — the same point for both
participants. -/
theorem from_collision_path_consistency (f s : ℕ) (fc sc : Collider2D)
    (ft st : Transform) (ev : CollisionEvent)
    (h : CollisionEvent.from_collision f s fc sc ft st = some ev) :
    ∃ center : Vec2,
      (fc.scaled_by ft.scale.x ft.scale.y).collision ft.translation
          (sc.scaled_by st.scale.x st.scale.y) st.translation = some center ∧
        ev.collisions.1.path + ft.translation = center ∧
        ev.collisions.2.path + st.translation = center := by
  simp only [CollisionEvent.from_collision, Collider2D.collision_paths, Option.map_map,
    Option.map_eq_some'] at h
  obtain ⟨c, hc, hev⟩ := h
  refine ⟨c, hc, ?_, ?_⟩
  · rw [← hev]
    show c - ft.translation + ft.translation = c
    simp only [Vec2.sub_def, Vec2.add_def, sub_add_cancel]
  · rw [← hev]
    show c - st.translation + st.translation = c
    simp only [Vec2.sub_def, Vec2.add_def, sub_add_cancel]

/-- Witness for C8 on the example collision. -/
theorem from_collision_path_consistency_witness :
    ∃ center : Vec2,
      (exCollider.scaled_by exTransform0.scale.x exTransform0.scale.y).collision
          exTransform0.translation
          (exCollider.scaled_by exTransform1.scale.x exTransform1.scale.y)
          exTransform1.translation = some center ∧
        exEvent.collisions.1.path + exTransform0.translation = center ∧
        exEvent.collisions.2.path + exTransform1.translation = center :=
  from_collision_path_consistency 0 1 exCollider exCollider exTransform0 exTransform1
    exEvent exFrom

instance (c1 e1 c2 e2 : ℚ) : Decidable (segsIntersect c1 e1 c2 e2) := by
  unfold segsIntersect
  infer_instance

instance (t1 : Transform) (c1 : Collider2D) (t2 : Transform) (c2 : Collider2D) :
    Decidable (boxesIntersect t1 c1 t2 c2) := by
  unfold boxesIntersect
  infer_instance

/-- For nonnegative extents the per-axis overlap is exactly interval
intersection, reporting the midpoint of the intersection. -/
theorem overlap_center_nonneg (c1 e1 c2 e2 : ℚ) (h1 : 0 ≤ e1) (h2 : 0 ≤ e2) :
    overlap_center c1 e1 c2 e2 =
      if segsIntersect c1 e1 c2 e2 then some (segMid c1 e1 c2 e2) else none := by
  rw [overlap_center_eq_closed]
  unfold segsIntersect segMid
  rw [min_eq_right h1, abs_of_nonneg h1, abs_of_nonneg h2]
  have hA : c1 - e1 * 0.5 - 0 = c1 - e1 * 0.5 := by ring
  have hB : c2 - e2 * 0.5 - 0 = c2 - e2 * 0.5 := by ring
  rw [hA, hB]
  have hC : c1 - e1 * 0.5 + e1 = c1 + e1 * 0.5 := by ring
  have hD : c2 - e2 * 0.5 + e2 = c2 + e2 * 0.5 := by ring
  rw [hC, hD]
  by_cases hy : max (c1 - e1 * 0.5) (c2 - e2 * 0.5) ≤ min (c1 + e1 * 0.5) (c2 + e2 * 0.5)
  · have hy' := hy
    rw [max_le_iff, le_min_iff, le_min_iff] at hy'
    have hcond : ¬(c1 + e1 * 0.5 < c2 - e2 * 0.5 ∨ c1 - e1 * 0.5 > c2 + e2 * 0.5) := by
      push_neg
      exact ⟨hy'.2.1, hy'.1.2⟩
    rw [if_pos hy, if_neg hcond]
  · have hcond : c1 + e1 * 0.5 < c2 - e2 * 0.5 ∨ c1 - e1 * 0.5 > c2 + e2 * 0.5 := by
      by_contra hc
      push_neg at hc
      exact hy (max_le (le_min (by linarith) hc.2) (le_min hc.1 (by linarith)))
    rw [if_pos hcond, if_neg hy]

theorem scaled_by_width (c : Collider2D) (x y : ℚ) :
    (c.scaled_by x y).width = c.width * x := rfl

theorem scaled_by_height (c : Collider2D) (x y : ℚ) :
    (c.scaled_by x y).height = c.height * y := rfl

/-- For nonnegative extents, `collision` is exactly box intersection,
reporting the center of the intersection box. -/
theorem collision_nonneg_eq (A B : Collider2D) (pA pB : Vec2)
    (hw1 : 0 ≤ A.width) (hh1 : 0 ≤ A.height) (hw2 : 0 ≤ B.width) (hh2 : 0 ≤ B.height) :
    A.collision pA B pB =
      if segsIntersect (pA + A.offset).x A.width (pB + B.offset).x B.width ∧
          segsIntersect (pA + A.offset).y A.height (pB + B.offset).y B.height then
        some ⟨segMid (pA + A.offset).x A.width (pB + B.offset).x B.width,
          segMid (pA + A.offset).y A.height (pB + B.offset).y B.height⟩
      else none := by
  rw [Collider2D.collision_eq_closed]
  rw [overlap_center_nonneg _ _ _ _ hw1 hw2, overlap_center_nonneg _ _ _ _ hh1 hh2]
  split_ifs with h1 h2 h3 <;> first | rfl | tauto

/-- The scaled-collider collision equals world-box intersection when
the scaled extents are nonnegative. -/
theorem scaled_collision_eq_boxes (c1 c2 : Collider2D) (t1 t2 : Transform)
    (h1 : 0 ≤ c1.width * t1.scale.x) (h2 : 0 ≤ c1.height * t1.scale.y)
    (h3 : 0 ≤ c2.width * t2.scale.x) (h4 : 0 ≤ c2.height * t2.scale.y) :
    (c1.scaled_by t1.scale.x t1.scale.y).collision t1.translation
        (c2.scaled_by t2.scale.x t2.scale.y) t2.translation =
      if boxesIntersect t1 c1 t2 c2 then
        some ⟨segMid (worldCenter t1 c1).x (worldExtent t1 c1).x (worldCenter t2 c2).x
            (worldExtent t2 c2).x,
          segMid (worldCenter t1 c1).y (worldExtent t1 c1).y (worldCenter t2 c2).y
            (worldExtent t2 c2).y⟩
      else none := by
  rw [collision_nonneg_eq (c1.scaled_by t1.scale.x t1.scale.y)
    (c2.scaled_by t2.scale.x t2.scale.y) t1.translation t2.translation h1 h2 h3 h4]
  have ew1 : ((c1.scaled_by t1.scale.x t1.scale.y).width) = (worldExtent t1 c1).x :=
    (abs_of_nonneg h1).symm
  have eh1 : ((c1.scaled_by t1.scale.x t1.scale.y).height) = (worldExtent t1 c1).y :=
    (abs_of_nonneg h2).symm
  have ew2 : ((c2.scaled_by t2.scale.x t2.scale.y).width) = (worldExtent t2 c2).x :=
    (abs_of_nonneg h3).symm
  have eh2 : ((c2.scaled_by t2.scale.x t2.scale.y).height) = (worldExtent t2 c2).y :=
    (abs_of_nonneg h4).symm
  have ec1 : t1.translation + (c1.scaled_by t1.scale.x t1.scale.y).offset
      = worldCenter t1 c1 := rfl
  have ec2 : t2.translation + (c2.scaled_by t2.scale.x t2.scale.y).offset
      = worldCenter t2 c2 := rfl
  rw [ew1, eh1, ew2, eh2, ec1, ec2]
  rfl

/-- C9 (amended): when all four scaled extents are nonnegative,
`from_collision` succeeds exactly when the two world-space boxes
intersect (touching included), and the event is built from the center
of the intersection box. -/
theorem from_collision_box_semantics (f s : ℕ) (c1 c2 : Collider2D) (t1 t2 : Transform)
    (h1 : 0 ≤ c1.width * t1.scale.x) (h2 : 0 ≤ c1.height * t1.scale.y)
    (h3 : 0 ≤ c2.width * t2.scale.x) (h4 : 0 ≤ c2.height * t2.scale.y) :
    (((CollisionEvent.from_collision f s c1 c2 t1 t2).isSome = true) ↔
        boxesIntersect t1 c1 t2 c2) ∧
      ∀ ev, CollisionEvent.from_collision f s c1 c2 t1 t2 = some ev →
        ev = CollisionEvent.new f s
          (Vec2.mk (segMid (worldCenter t1 c1).x (worldExtent t1 c1).x
              (worldCenter t2 c2).x (worldExtent t2 c2).x)
            (segMid (worldCenter t1 c1).y (worldExtent t1 c1).y
              (worldCenter t2 c2).y (worldExtent t2 c2).y) - t1.translation)
          (Vec2.mk (segMid (worldCenter t1 c1).x (worldExtent t1 c1).x
              (worldCenter t2 c2).x (worldExtent t2 c2).x)
            (segMid (worldCenter t1 c1).y (worldExtent t1 c1).y
              (worldCenter t2 c2).y (worldExtent t2 c2).y) - t2.translation) := by
  have hcol := scaled_collision_eq_boxes c1 c2 t1 t2 h1 h2 h3 h4
  constructor
  · simp only [CollisionEvent.from_collision, Collider2D.collision_paths,
      Option.isSome_map']
    rw [hcol]
    split_ifs with hbox
    · simp [hbox]
    · simp [hbox]
  · intro ev h
    simp only [CollisionEvent.from_collision, Collider2D.collision_paths, Option.map_map,
      Option.map_eq_some'] at h
    obtain ⟨c, hc, hev⟩ := h
    rw [hcol] at hc
    split_ifs at hc with hbox
    have hcc : c = Vec2.mk (segMid (worldCenter t1 c1).x (worldExtent t1 c1).x
        (worldCenter t2 c2).x (worldExtent t2 c2).x)
        (segMid (worldCenter t1 c1).y (worldExtent t1 c1).y
          (worldCenter t2 c2).y (worldExtent t2 c2).y) := by
      injection hc with hcc
      exact hcc.symm
    rw [← hev, hcc]
    rfl

/-- C9 (counterexample): with a negative width, `from_collision`
reports a collision although the world-space boxes (centered boxes with
absolute extents) are disjoint. -/
theorem from_collision_box_cex :
    (CollisionEvent.from_collision 0 1 (Collider2D.rect (-2) 2 ⟨0, 0⟩)
        (Collider2D.rect 2 2 ⟨0, 0⟩) ⟨⟨0, 0⟩, ⟨1, 1⟩⟩ ⟨⟨2.5, 0⟩, ⟨1, 1⟩⟩).isSome = true ∧
      ¬ boxesIntersect ⟨⟨0, 0⟩, ⟨1, 1⟩⟩ (Collider2D.rect (-2) 2 ⟨0, 0⟩)
        ⟨⟨2.5, 0⟩, ⟨1, 1⟩⟩ (Collider2D.rect 2 2 ⟨0, 0⟩) := by
  constructor
  · simp only [CollisionEvent.from_collision, Collider2D.collision_paths,
      Option.isSome_map', Collider2D.collision_eq_closed]
    norm_num [Collider2D.scaled_by, Collider2D.rect, Collider2D.width, Collider2D.height,
      overlap_center, overlap, abs_of_nonneg, abs_of_nonpos]
  · norm_num [boxesIntersect, segsIntersect, worldCenter, worldExtent, Collider2D.rect,
      Collider2D.width, Collider2D.height, abs_of_nonneg, abs_of_nonpos, max_def, min_def]

/-- Witness for C9 on the example world geometry. -/
theorem from_collision_box_semantics_witness :
    (0:ℚ) ≤ exCollider.width * exTransform0.scale.x ∧
      (0:ℚ) ≤ exCollider.height * exTransform0.scale.y ∧
      (0:ℚ) ≤ exCollider.width * exTransform1.scale.x ∧
      (0:ℚ) ≤ exCollider.height * exTransform1.scale.y ∧
      boxesIntersect exTransform0 exCollider exTransform1 exCollider := by
  have h1 : (0:ℚ) ≤ exCollider.width * exTransform0.scale.x := by
    norm_num [exCollider, Collider2D.rect_without_offset, Collider2D.rect,
      Collider2D.width, exTransform0]
  have h2 : (0:ℚ) ≤ exCollider.height * exTransform0.scale.y := by
    norm_num [exCollider, Collider2D.rect_without_offset, Collider2D.rect,
      Collider2D.height, exTransform0]
  have h3 : (0:ℚ) ≤ exCollider.width * exTransform1.scale.x := by
    norm_num [exCollider, Collider2D.rect_without_offset, Collider2D.rect,
      Collider2D.width, exTransform1]
  have h4 : (0:ℚ) ≤ exCollider.height * exTransform1.scale.y := by
    norm_num [exCollider, Collider2D.rect_without_offset, Collider2D.rect,
      Collider2D.height, exTransform1]
  refine ⟨h1, h2, h3, h4, ?_⟩
  exact (from_collision_box_semantics 0 1 exCollider exCollider exTransform0 exTransform1
    h1 h2 h3 h4).1.mp (by rw [exFrom]; rfl)
